import Mathlib

set_option maxRecDepth 8000

/-!
Verification of the alignment-and-resumable-batch pipeline of the
Gemini-auto-bot repository.

The Python source is shallowly embedded below:

* `parse_gemini_response` (gemini_automator.py, lines 573-616): the two-grammar
  response parser.  The block grammar is the regex
  `---\s*([^-]+?)\s*---\s*,\s*(.+?)(?=\s*---\s*[^-]+?\s*---|$)` applied with
  `re.finditer` under `re.MULTILINE | re.DOTALL`; the line grammar is the
  per-line `id,text` fallback.  The regex semantics are embedded operationally:
  for this particular pattern the backtracking search collapses to a
  deterministic scan (the identifier group `[^-]+?` must stop at the first
  dash, the `\s*` runs before a required literal are forced maximal, and the
  lazy `(.+?)` stops at the first position where the lookahead holds; under
  `re.MULTILINE` the `$` alternative of the lookahead holds at every end of
  line, i.e. at end of input or directly before a newline character).
* `save_matched_outputs` (gemini_automator.py, lines 623-660): the result
  writer.  The filesystem is modelled as a map from file names to contents
  within the group's output directory, write success as a predicate `ok` on
  the target name, and the directory prefix by its length `baseLen`.
* the work-set selection of get_incomplete_list.py together with the status
  derivation of count_files.py.
* `find_corresponding_full_transcript` (gemini_automator.py, lines 179-235)
  with its two hardcoded tables; the cleaned-transcript directory tree is
  modelled as a list of (month folder name, file names in glob order).
* the delete-then-rewrite reprocessing step of reprocess_partial.py
  (lines 138-150).

Machine strings are embedded as `String`/`List Char`; Python's `\s` class and
`str.strip()` whitespace is modelled by `isPySpace` (the ASCII whitespace
characters, the only ones relevant to the embedded code paths).
-/

/-- Python's `\s` character class / `str.strip()` whitespace (ASCII part). -/
def isPySpace (c : Char) : Bool :=
  c == ' ' || c == '\t' || c == '\n' || c == '\r' || c == '\x0b' || c == '\x0c'

/-- Python `str.strip()` on a character list. -/
def pyStrip (l : List Char) : List Char :=
  ((l.dropWhile isPySpace).reverse.dropWhile isPySpace).reverse

/-- Python `str.split(chr(10))` on a character list. -/
def splitNl : List Char → List (List Char)
  | [] => [[]]
  | c :: rest =>
    if c = '\n' then [] :: splitNl rest
    else
      match splitNl rest with
      | [] => [[c]]
      | l :: ls => (c :: l) :: ls

/-- Does the list start with three dash characters?  Used to model the
literal `---` of the block-grammar regex. -/
def startsTriple : List Char → Bool
  | a :: b :: c :: _ => a == '-' && b == '-' && c == '-'
  | _ => false

/-- No occurrence of three consecutive dashes anywhere in the list. -/
def noTripleDash : List Char → Bool
  | [] => true
  | c :: rest => !startsTriple (c :: rest) && noTripleDash rest

/-- Case-insensitive prefix test; the pattern is given in lower case,
list characters are lowered before comparison (Python `re.IGNORECASE` /
`str.lower()` on the ASCII identifiers appearing in the code). -/
def startsWithLower : List Char → List Char → Bool
  | [], _ => true
  | _ :: _, [] => false
  | p :: ps, c :: cs => p == c.toLower && startsWithLower ps cs

/-- Case-insensitive substring test (`pat in line.lower()` for a lower-case
ASCII `pat`). -/
def containsLower (pat : List Char) : List Char → Bool
  | [] => startsWithLower pat []
  | c :: cs => startsWithLower pat (c :: cs) || containsLower pat cs

/-- Exact substring test (`needle in hay`). -/
def containsSeq (pat : List Char) : List Char → Bool
  | [] => pat.isEmpty
  | c :: cs => (pat.isPrefixOf (c :: cs) : Bool) || containsSeq pat cs

/-- Drop a case-insensitively matched token from the front, if present. -/
def dropLowerTok : List Char → List Char → Option (List Char)
  | [], cs => some cs
  | _ :: _, [] => none
  | p :: ps, c :: cs => if p == c.toLower then dropLowerTok ps cs else none

def headerTok : List Char := ['f', 'i', 'l', 'e', '_', 'n', 'a', 'm', 'e']

def matchedTok : List Char :=
  ['m', 'a', 't', 'c', 'h', 'e', 'd', '_', 't', 'e', 'x', 't']

/-- `re.sub(r'^file_name\s*,\s*matched_text\s*\n?', '', text, flags=re.IGNORECASE)`:
the pattern is anchored at the start of the string only (no `re.MULTILINE`),
and the greedy `\s*` before the optional newline already swallows every
whitespace character (newlines included) following `matched_text`. -/
def stripHeader (cs : List Char) : List Char :=
  match dropLowerTok headerTok cs with
  | none => cs
  | some r1 =>
    match r1.dropWhile isPySpace with
    | ',' :: r3 =>
      match dropLowerTok matchedTok (r3.dropWhile isPySpace) with
      | none => cs
      | some r4 => r4.dropWhile isPySpace
    | _ => cs

/-- `!(u.takeWhile (· != '-')).isEmpty && startsTriple (u.dropWhile (· != '-'))`:
the `\s*[^-]+?\s*---` part of the lookahead, after its leading `---`.  (As in
the main pattern, the group must stop at the first dash, which must open a
literal `---`.) -/
def afterTripleOk (u : List Char) : Bool :=
  !(u.takeWhile (fun c => c != '-')).isEmpty &&
    startsTriple (u.dropWhile (fun c => c != '-'))

/-- The first lookahead alternative `\s*---\s*[^-]+?\s*---` holds at this
position. -/
def markerAhead (cs : List Char) : Bool :=
  let d := cs.dropWhile isPySpace
  startsTriple d && afterTripleOk (d.drop 3)

/-- The lookahead `(?=\s*---\s*[^-]+?\s*---|$)` holds at this position
(`$` under `re.MULTILINE`: end of input or directly before a newline). -/
def lookaheadStop : List Char → Bool
  | [] => true
  | c :: rest => c == '\n' || markerAhead (c :: rest)

/-- Lazy extension of the text group `(.+?)`: one character is already
consumed (in `acc`), keep consuming until the lookahead holds. -/
def takeTextGo (acc : List Char) : List Char → List Char × List Char
  | [] => (acc.reverse, [])
  | c :: rest =>
    if lookaheadStop (c :: rest) then (acc.reverse, c :: rest)
    else takeTextGo (c :: acc) rest

/-- `(.+?)(?=...)` needs at least one character, then extends lazily. -/
def takeTextStart : List Char → List Char × List Char
  | [] => ([], [])
  | c :: rest => takeTextGo [c] rest

/-- One attempt of the block-grammar pattern
`---\s*([^-]+?)\s*---\s*,\s*(.+?)(?=\s*---\s*[^-]+?\s*---|$)` anchored at the
front of `cs`.  On success, returns the two groups (already `.strip()`-ed, as
the Python loop body does) and the remainder of the input from the match end
(the lookahead is not consumed).  The corner case of a comma followed only by
whitespace corresponds to the regex backtracking `\s*` by one character so
that `(.+?)` can consume a single whitespace character and `$` holds at end
of input. -/
def tryMatchFront (cs : List Char) :
    Option ((List Char × List Char) × List Char) :=
  if startsTriple cs then
    let rest1 := cs.drop 3
    let sp := rest1.takeWhile (fun c => c != '-')
    let rest2 := rest1.dropWhile (fun c => c != '-')
    if sp.isEmpty then none
    else if startsTriple rest2 then
      let rest4 := (rest2.drop 3).dropWhile isPySpace
      if rest4.head? = some ',' then
        let rest5 := rest4.tail
        let body := rest5.dropWhile isPySpace
        if body.isEmpty then
          if rest5.isEmpty then none else some ((pyStrip sp, []), [])
        else
          let r := takeTextStart body
          some ((pyStrip sp, pyStrip r.1), r.2)
      else none
    else none
  else none

/-- `re.finditer` scan: try a match at every position, left to right,
resuming after the end of each successful match.  Fuel-driven so that the
function is structurally recursive (and hence computable by the kernel);
`blockPairs` instantiates the fuel with the input length, which suffices
because every step consumes at least one character. -/
def scanFuel : Nat → List Char → List (List Char × List Char)
  | 0, _ => []
  | fuel + 1, cs =>
    match tryMatchFront cs with
    | some (pr, rem) => pr :: scanFuel fuel rem
    | none =>
      match cs with
      | [] => []
      | _ :: cs2 => scanFuel fuel cs2

/-- All (stripped) group pairs produced by the block-grammar `finditer` loop. -/
def blockPairs (cs : List Char) : List (List Char × List Char) :=
  scanFuel cs.length cs

/-- The block-grammar matches that the Python loop actually appends:
`if file_name and matched_text` keeps only pairs non-empty after stripping. -/
def blockMatchesL (cs : List Char) : List (List Char × List Char) :=
  (blockPairs cs).filter (fun p => !p.1.isEmpty && !p.2.isEmpty)

/-- One line of the format-2 (line grammar) fallback:
skip blank lines and lines containing `file_name` (case-insensitively),
split at the first comma (`line.split(',', 1)`), strip both parts, and keep
the pair only if both are non-empty and the identifier is shorter than 200
characters. -/
def lineKeep (line : List Char) : Option (String × String) :=
  if (pyStrip line).isEmpty then none
  else if containsLower headerTok line then none
  else if (line.dropWhile (fun c => c != ',')).isEmpty then none
  else
    if (pyStrip (line.takeWhile (fun c => c != ','))).isEmpty then none
    else if (pyStrip ((line.dropWhile (fun c => c != ',')).tail)).isEmpty then none
    else if (pyStrip (line.takeWhile (fun c => c != ','))).length < 200 then
      some (⟨pyStrip (line.takeWhile (fun c => c != ','))⟩,
        ⟨pyStrip ((line.dropWhile (fun c => c != ',')).tail)⟩)
    else none

/-- Format-2 fallback: `response_text.strip().split(chr(10))` then the
per-line parse. -/
def lineMatchesL (cs : List Char) : List (String × String) :=
  (splitNl (pyStrip cs)).filterMap lineKeep

/-- `parse_gemini_response` (gemini_automator.py, lines 573-616): strip the
CSV header, try the block grammar; if it produced no (kept) matches, fall
back to the line grammar. -/
def parse_gemini_response (s : String) : List (String × String) :=
  let cs := stripHeader s.data
  let b := blockMatchesL cs
  if b.isEmpty then lineMatchesL cs
  else b.map (fun p => (⟨p.1⟩, ⟨p.2⟩))

/-! ### Result writer (`save_matched_outputs`) -/

/-- The character class of `re.sub(r'[<>:"/\\|?*]', '_', file_name)`. -/
def forbiddenChars : List Char := ['<', '>', ':', '"', '/', '\\', '|', '?', '*']

def txtExt : List Char := ['.', 't', 'x', 't']

/-- Python `name.endswith('.txt')`. -/
def endsWithTxt (l : List Char) : Bool :=
  l.reverse.take 4 == ['t', 'x', 't', '.']

/-- Python slice `l[:k]` for a possibly negative `k`. -/
def pyTake (l : List Char) (k : Int) : List Char :=
  if 0 ≤ k then l.take k.toNat
  else l.take (l.length - min l.length (-k).toNat)

/-- `re.sub(r'[<>:"/\\|?*]', '_', file_name)`. -/
def sanitizeName (name : List Char) : List Char :=
  name.map (fun c => if forbiddenChars.contains c then '_' else c)

/-- `if not safe_filename.endswith('.txt'): safe_filename += '.txt'`. -/
def ensureTxt (l : List Char) : List Char :=
  if endsWithTxt l then l else l ++ txtExt

/-- The truncation against `max_filename_length = 255 - len(base_path) - 10`:
`safe_filename[:-4][:max_filename_length - 4] + '.txt'` when the name is too
long.  `baseLen` is `len(str(full_output_dir))`. -/
def truncateName (baseLen : Nat) (l : List Char) : List Char :=
  if (l.length : Int) > 255 - (baseLen : Int) - 10 then
    pyTake (l.take (l.length - 4)) (255 - (baseLen : Int) - 10 - 4) ++ txtExt
  else l

/-- The output file name computed by `save_matched_outputs` for one match:
sanitize, append `.txt` when absent, truncate keeping `.txt`. -/
def outputName (baseLen : Nat) (name : List Char) : List Char :=
  truncateName baseLen (ensureTxt (sanitizeName name))

/-- `save_matched_outputs` (gemini_automator.py, lines 623-660): write each
match to its own file inside the group's output directory, counting the
successful writes; a failing write (`ok n = false`) is logged and skipped
without aborting the loop.  The group directory is modelled as a map from
file names to contents. -/
def save_matched_outputs (ok : List Char → Bool) (baseLen : Nat) :
    List (String × String) → (List Char → Option String) →
    Nat × (List Char → Option String)
  | [], fs => (0, fs)
  | (f, t) :: rest, fs =>
    let n := outputName baseLen f.data
    if ok n then
      let r := save_matched_outputs ok baseLen rest
        (fun m => if m = n then some t else fs m)
      (r.1 + 1, r.2)
    else save_matched_outputs ok baseLen rest fs

/-! ### Progress tracking (count_files.py / get_incomplete_list.py) -/

/-- The per-group status chain of count_files.py (lines 107-118):
`training == 0`, `training == segments`, `training < segments`, otherwise
extra files.  The spec names these NotStarted / Complete / Partial /
Overshoot. -/
inductive GroupStatus
  | notStarted
  | partialDone
  | complete
  | overshoot
deriving DecidableEq

def statusOf (training segments : Nat) : GroupStatus :=
  if training = 0 then .notStarted
  else if training = segments then .complete
  else if training < segments then .partialDone
  else .overshoot

/-- A group row: its name and the two directory-enumeration counts. -/
structure GroupCount where
  name : String
  segments : Nat
  training : Nat
deriving DecidableEq

/-- The reprocessing list built by get_incomplete_list.py (lines 49-59):
`not_processed` (training count zero) followed by `partial` (nonzero and
less than the segment count). -/
def workSet (gs : List GroupCount) : List GroupCount :=
  gs.filter (fun g => g.training == 0) ++
    gs.filter (fun g => !(g.training == 0) && decide (g.training < g.segments))

/-! ### Reference resolution (`find_corresponding_full_transcript`) -/

def SEGMENT_TO_TRANSCRIPT_MAP : List (String × String) := [
  ("Konkani Prime News_070817", "7 AUG PRIME_non_bold.odt"),
  ("Konkani Prime News_100817", "10 AUG PRIME_non_bold.odt"),
  ("Konkani Prime News_150817", "15 AUG PRIME_non_bold.odt"),
  ("Konkani Prime News_180817", "18 AUG PRIME_non_bold.odt"),
  ("Konkani Prime News_210817", "21 AUG PRIME_non_bold.odt"),
  ("Konkani Prime News_260817", "26 AUG PRIME_non_bold.odt"),
  ("Konkani Prime News_270817", "27 AUG PRIME_non_bold.odt"),
  ("Konkani Prime News_310817", "31 AUG PRIME_non_bold.odt"),
  ("konkani Prime news_030717", "3 JULY PRIME_non_bold.odt"),
  ("Konkani Prime news_040717", "4 JULY PRIME_non_bold.odt"),
  ("Konkani Prime news_060717", "6  JULY PRIME_non_bold.odt"),
  ("Konkani Prime news_100717", "10JULYPRIME_non_bold.odt"),
  ("Konkani Prime news_170717", "17 JULY PRIME_non_bold.odt"),
  ("Konkani Update news_170717", "17 JULY UPDATE_non_bold.odt"),
  ("Konkani Prime news_250717", "25 JULY PRIME_non_bold.odt"),
  ("Konkani Prime news_270717", "27 JULY PRIME_non_bold.odt"),
  ("konkani prime news_01.0617", "1 JUNE PRIME_non_bold.odt"),
  ("konkani prime news_050617", "5 JUNE PRIME_non_bold.odt"),
  ("konkani update news_110617", "11 JUNE UPDATE_non_bold.odt"),
  ("konkani prime news_120617", "12 JUNE PRIME_non_bold.odt"),
  ("konkani prime news_190617", "19 JUNE PRIME_non_bold.odt"),
  ("konkani prime news_210617", "21 JUNE PRIME_non_bold.odt"),
  ("konkani prime news_220617", "22 JUNE PRIME_non_bold.odt"),
  ("konkani Prime news_260617", "26 JUNE PRIME_non_bold.odt"),
  ("konkani update news_260617", "26 JUNE UPDATE_non_bold.odt"),
  ("Konk Prime_010517", "1 MAY PRIME_non_bold.odt"),
  ("Konk Prime News_040517", "4 MAY PRIME_non_bold.odt"),
  ("Konkani Prime News_080517", "8 MAY PRIME_non_bold.odt"),
  ("Konk Prime News_110517", "11 MAY PRIME_non_bold.odt"),
  ("Konkani Prime News_150517", "15 MAY PRIME_non_bold.odt"),
  ("Konk Prime News_220517", "21 MAY PRIME_non_bold.odt"),
  ("konkani prime news_250517", "25 MAY PRIME_non_bold.odt"),
  ("2nd Oct 17_Konk Prime News", "2 OCT PRIME_non_bold.odt"),
  ("6nd Oct 17_Konk Prime News", "6 OCT PRIME_non_bold.odt"),
  ("9th Oct 17_Konk Prime News", "9 OCT PRIME_non_bold.odt"),
  ("12th Oct 17_Konk Prime News", "12 OCT PRIME_non_bold.odt"),
  ("16th Oct 17_Konk Prime News", "16 OCT PRIME_non_bold.odt"),
  ("19th Oct 17_Konk Prime News", "19 OCT PRIME_non_bold.odt"),
  ("27th Oct 17_Konk Prime News", "27 OCT PRIME_non_bold.odt"),
  ("30th Oct 17_Konk Prime News", "30 OCT PRIME_non_bold.odt"),
  ("03 nov 17_Konk Prime News", "3  NOV  PRIME_non_bold.odt"),
  ("06 nov 17_Konk Prime News", "6  NOV  PRIME_non_bold.odt"),
  ("konkani prime 13 nov 17", "13  NOV PRIME_non_bold.odt"),
  ("konkani prime 15 nov 17", "15 NOV PRIME_non_bold.odt"),
  ("konkani prime 16 nov 17", "16 NOV PRIME_non_bold.odt"),
  ("16th Nov 17 _ konkani update 17 nov _audio_only", "16 NOV PRIME_non_bold.odt"),
  ("konkani prime 20 nov 17", "20 NOV PRIME_non_bold.odt"),
  ("konkani prime 24 nov 17", "24  NOV PRIME_non_bold.odt"),
  ("konkani prime 27 nov 17", "27  NOV PRIME_non_bold.odt")]

def MONTH_FOLDER_MAP : List (String × String) := [
  ("aug", "Augustcleaned"),
  ("july", "Julycleaned"),
  ("june", "Junecleaned"),
  ("may", "Maycleaned"),
  ("october", "Octobercleaned"),
  ("november", "Novembercleaned")]

def month_map : List (String × String) := [
  ("jan", "january"), ("feb", "february"), ("mar", "march"),
  ("apr", "april"), ("may", "may"), ("jun", "june"),
  ("jul", "july"), ("aug", "august"), ("sep", "september"),
  ("oct", "october"), ("nov", "november"), ("dec", "december")]

/-- Python `needle in hay` for strings. -/
def strContains (needle hay : String) : Bool := containsSeq needle.data hay.data

/-- Python `str.lower()` (character-wise lowering; the identifiers involved
are ASCII). -/
def strLower (s : String) : String := ⟨s.data.map Char.toLower⟩

/-- The tail of `find_corresponding_full_transcript`: look the month folder
up in the cleaned-transcript tree (`fs` : month folder name to file names in
glob order), then the transcript file exactly, then case-insensitively over
`glob("*")`. -/
def resolveDoc (fs : List (String × List String)) (mn tf : String) :
    Option String :=
  match fs.find? (fun d => d.1 == mn) with
  | none => none
  | some d =>
    if d.2.contains tf then some (mn ++ "/" ++ tf)
    else
      match d.2.find? (fun f => strLower f == strLower tf) with
      | some f => some (mn ++ "/" ++ f)
      | none => none

/-- `find_corresponding_full_transcript` (gemini_automator.py, lines
179-235).  `folderName` is `Path(segment_subfolder).name` and `parentName`
is `Path(segment_subfolder).parent.name` (the path splitting itself is
filesystem glue).  First key of the exact mapping table matching
case-insensitively; month folder by substring against `MONTH_FOLDER_MAP`,
falling back to the generic month abbreviation table; document looked up
exactly, then case-insensitively. -/
def find_corresponding_full_transcript (folderName parentName : String)
    (fs : List (String × List String)) : Option String :=
  match SEGMENT_TO_TRANSCRIPT_MAP.find?
      (fun kv => strLower kv.1 == strLower folderName) with
  | none => none
  | some kv =>
    let tf := kv.2
    let monthFolder := strLower parentName
    match MONTH_FOLDER_MAP.find? (fun e => strContains e.1 monthFolder) with
    | some e => resolveDoc fs e.2 tf
    | none =>
      match month_map.find?
          (fun e => strContains e.1 monthFolder || strContains e.2 monthFolder) with
      | some e => resolveDoc fs e.2 tf
      | none => none

/-! ### Reprocessing a Partial group (reprocess_partial.py, lines 138-150) -/

/-- Deleting `output_folder.glob("*.txt")`. -/
def deleteTxtFiles (fs : List Char → Option String) : List Char → Option String :=
  fun n => if endsWithTxt n then none else fs n

/-- The per-group write phase of reprocess_partial.py: only `if matches:`
does anything happen, and then all prior `*.txt` artifacts are deleted
before the new set is written. -/
def reprocess_partial_step (ok : List Char → Bool) (baseLen : Nat)
    (ms : List (String × String)) (fs : List Char → Option String) :
    Nat × (List Char → Option String) :=
  if ms.isEmpty then (0, fs)
  else save_matched_outputs ok baseLen ms (deleteTxtFiles fs)

/-! ### Well-formed block-grammar responses (for the parser round trip)

`renderBlocks` produces the response format described by the spec's block
grammar: `--- <id> ---,<text>` sequences, one block per line. -/

def renderBlock (i t : List Char) : List Char :=
  '-' :: '-' :: '-' :: ' ' :: (i ++ (' ' :: '-' :: '-' :: '-' :: ',' :: t))

def renderBlocks : List (List Char × List Char) → List Char
  | [] => []
  | [b] => renderBlock b.1 b.2
  | b :: rest => renderBlock b.1 b.2 ++ ('\n' :: renderBlocks rest)

/-- A well-formed block identifier: non-empty, dash-free (the grammar's
`<id>` may not contain `-`), with no surrounding whitespace. -/
def goodId (i : List Char) : Prop :=
  i ≠ [] ∧ '-' ∉ i ∧ i.dropWhile isPySpace = i ∧
    i.reverse.dropWhile isPySpace = i.reverse

instance (i : List Char) : Decidable (goodId i) := by
  unfold goodId; infer_instance

/-- A well-formed single-line block text: non-empty, no surrounding
whitespace, no newline, and no embedded `---` (which would be read as a
block marker).  Commas and isolated dashes are allowed. -/
def goodText (t : List Char) : Prop :=
  t ≠ [] ∧ t.dropWhile isPySpace = t ∧ t.reverse.dropWhile isPySpace = t.reverse ∧
    '\n' ∉ t ∧ noTripleDash t = true

instance (t : List Char) : Decidable (goodText t) := by
  unfold goodText; infer_instance

def goodBlock (b : List Char × List Char) : Prop := goodId b.1 ∧ goodText b.2

instance (b : List Char × List Char) : Decidable (goodBlock b) := by
  unfold goodBlock; infer_instance

/-! ## Helper lemmas -/

theorem save_count_eq_filter (ok : List Char → Bool) (baseLen : Nat) :
    ∀ (ms : List (String × String)) (fs : List Char → Option String),
      (save_matched_outputs ok baseLen ms fs).1 =
        (ms.filter (fun m => ok (outputName baseLen m.1.data))).length := by
  intro ms
  induction ms with
  | nil => intro fs; rfl
  | cons m rest ih =>
    intro fs
    obtain ⟨f, t⟩ := m
    by_cases h : ok (outputName baseLen f.data)
    · simp [save_matched_outputs, h, List.filter_cons, ih]
    · simp [save_matched_outputs, h, List.filter_cons, ih]

theorem save_fs_cases (ok : List Char → Bool) (baseLen : Nat) :
    ∀ (ms : List (String × String)) (fs : List Char → Option String)
      (n : List Char),
      (save_matched_outputs ok baseLen ms fs).2 n = fs n ∨
        ∃ m ∈ ms, outputName baseLen m.1.data = n ∧ ok n = true := by
  intro ms
  induction ms with
  | nil => intro fs n; left; rfl
  | cons m rest ih =>
    intro fs n
    obtain ⟨f, t⟩ := m
    by_cases h : ok (outputName baseLen f.data)
    · simp only [save_matched_outputs, h, if_true]
      rcases ih (fun m2 => if m2 = outputName baseLen f.data then some t else fs m2)
          n with h2 | h2
      · by_cases he : n = outputName baseLen f.data
        · right
          refine ⟨(f, t), List.mem_cons_self _ _, he.symm, ?_⟩
          rw [he]; exact h
        · left
          rw [h2]
          simp [he]
      · right
        obtain ⟨m2, hm2, hrest⟩ := h2
        exact ⟨m2, List.mem_cons_of_mem _ hm2, hrest⟩
    · simp only [save_matched_outputs, h, if_false]
      rcases ih fs n with h2 | h2
      · left; exact h2
      · right
        obtain ⟨m2, hm2, hrest⟩ := h2
        exact ⟨m2, List.mem_cons_of_mem _ hm2, hrest⟩

/-! ## Claim C9 -/

/-- C9: the writer returns the count of artifacts successfully written, and a
write failure on one artifact does not prevent the remaining artifacts from
being attempted: the returned count equals the number of individual writes
that succeeded, and removing a failing match from the list leaves the count
unchanged. -/
theorem save_count_spec (ok : List Char → Bool) (baseLen : Nat)
    (ms : List (String × String)) (fs : List Char → Option String) :
    (save_matched_outputs ok baseLen ms fs).1 =
      (ms.filter (fun m => ok (outputName baseLen m.1.data))).length ∧
    ∀ pre m post, ms = pre ++ m :: post →
      ok (outputName baseLen m.1.data) = false →
      (save_matched_outputs ok baseLen ms fs).1 =
        (save_matched_outputs ok baseLen (pre ++ post) fs).1 := by
  refine ⟨save_count_eq_filter ok baseLen ms fs, ?_⟩
  intro pre m post hms hok
  subst hms
  rw [save_count_eq_filter, save_count_eq_filter]
  simp [List.filter_append, List.filter_cons, hok]

/-- Witness for C9 at a concrete input: the write of `bad.txt` fails and the
other two artifacts of the group are still written. -/
theorem save_count_spec_witness :
    (save_matched_outputs (fun n => !(n == ("bad.txt" : String).data)) 10
        [("a", "x"), ("bad", "y"), ("c", "z")] (fun _ => none)).1 =
      (save_matched_outputs (fun n => !(n == ("bad.txt" : String).data)) 10
        [("a", "x"), ("c", "z")] (fun _ => none)).1 :=
  (save_count_spec (fun n => !(n == ("bad.txt" : String).data)) 10
      [("a", "x"), ("bad", "y"), ("c", "z")] (fun _ => none)).2
    [("a", "x")] ("bad", "y") [("c", "z")] rfl (by decide)

/-! ## Claim C3 -/

/-- C3 counterexample: for a group with a single discovered segment, an
oracle response containing two well-formed blocks causes two artifacts to be
written — neither the parser nor the writer consults the segment list, so
artifacts written can exceed segments discovered. -/
theorem save_count_exceeds_segments_cex :
    (save_matched_outputs (fun _ => true) 20
        (parse_gemini_response "--- a ---,x\n--- b ---,y") (fun _ => none)).1 = 2 ∧
      List.length ["segment_001"] = 1 ∧ ¬ (2 ≤ 1) := by
  exact ⟨by decide, rfl, by decide⟩

/-- C3 (amended): the number of artifacts written is bounded by the number of
(id, text) pairs parsed from the response (rather than by the number of
segments discovered in the group, which the code never consults). -/
theorem save_count_le_parsed (response : String) (ok : List Char → Bool)
    (baseLen : Nat) (fs : List Char → Option String) :
    (save_matched_outputs ok baseLen (parse_gemini_response response) fs).1 ≤
      (parse_gemini_response response).length := by
  rw [save_count_eq_filter]
  exact List.length_filter_le _ _

/-! ## Claim C8 -/

/-- C8: when reprocessing a Partial group, zero parsed matches leave the
group's artifacts untouched, while one or more matches first delete every
prior `*.txt` artifact, so any `*.txt` file present afterwards is one of the
freshly written artifacts (no stale artifact survives). -/
theorem reprocess_partial_frame (ok : List Char → Bool) (baseLen : Nat)
    (ms : List (String × String)) (fs : List Char → Option String) :
    (ms = [] → (reprocess_partial_step ok baseLen ms fs).2 = fs) ∧
    (ms ≠ [] → ∀ n, endsWithTxt n = true →
      (reprocess_partial_step ok baseLen ms fs).2 n ≠ none →
      ∃ m ∈ ms, outputName baseLen m.1.data = n ∧ ok n = true) := by
  constructor
  · intro h
    subst h
    rfl
  · intro h n htxt hne
    have hne2 : ms.isEmpty = false := by
      cases ms with
      | nil => exact absurd rfl h
      | cons a l => rfl
    unfold reprocess_partial_step at hne
    rw [hne2] at hne
    simp only [Bool.false_eq_true, if_false] at hne
    rcases save_fs_cases ok baseLen ms (deleteTxtFiles fs) n with h2 | h2
    · exfalso
      apply hne
      rw [h2]
      unfold deleteTxtFiles
      rw [htxt]
      simp
    · exact h2

/-- Witness for C8 at concrete inputs: an empty match list leaves the
filesystem unchanged, and after reprocessing with one match the surviving
`a.txt` artifact is among the written ones. -/
theorem reprocess_partial_frame_witness :
    (reprocess_partial_step (fun _ => true) 10 []
        (fun n => if n = ("old.txt" : String).data then some "stale" else none)).2 =
      (fun n => if n = ("old.txt" : String).data then some "stale" else none) ∧
    ∃ m ∈ [(("a" : String), ("x" : String))],
      outputName 10 m.1.data = ("a.txt" : String).data ∧
        (fun (_ : List Char) => true) (("a.txt" : String).data) = true := by
  constructor
  · exact (reprocess_partial_frame (fun _ => true) 10 []
      (fun n => if n = ("old.txt" : String).data then some "stale" else none)).1 rfl
  · exact (reprocess_partial_frame (fun _ => true) 10 [("a", "x")]
      (fun n => if n = ("old.txt" : String).data then some "stale" else none)).2
      (by decide) (("a.txt" : String).data) (by decide) (by decide)

/-! ## Claim C2 -/

/-- C2 counterexample: a group with 1 expected segment and 2 completed
artifacts has derived status Overshoot, which is different from Complete,
yet get_incomplete_list selects it for reprocessing in neither of its two
lists: the work set misses it. -/
theorem workSet_overshoot_cex :
    workSet [⟨"g", 1, 2⟩] = [] ∧ statusOf 2 1 = GroupStatus.overshoot ∧
      GroupStatus.overshoot ≠ GroupStatus.complete := by
  decide

/-- C2 (amended): the work set contains exactly the groups whose derived
status is NotStarted or Partial; Complete groups are excluded, and — contrary
to the original claim — Overshoot groups (completed > expected) are excluded
as well. -/
theorem status_pred_iff (t s : Nat) :
    (((t == 0) || (!(t == 0) && decide (t < s))) = true) ↔
      (statusOf t s = GroupStatus.notStarted ∨
        statusOf t s = GroupStatus.partialDone) := by
  unfold statusOf
  split_ifs with h0 he hlt <;> simp [h0] <;> omega

theorem workSet_status_iff (gs : List GroupCount) (g : GroupCount) :
    g ∈ workSet gs ↔
      g ∈ gs ∧ (statusOf g.training g.segments = GroupStatus.notStarted ∨
        statusOf g.training g.segments = GroupStatus.partialDone) := by
  unfold workSet
  rw [List.mem_append, List.mem_filter, List.mem_filter]
  have h := status_pred_iff g.training g.segments
  constructor
  · rintro (⟨hg, hc⟩ | ⟨hg, hc⟩)
    · exact ⟨hg, h.mp (by simp [hc])⟩
    · exact ⟨hg, h.mp (by simp [hc])⟩
  · rintro ⟨hg, hs⟩
    have h2 := h.mpr hs
    simp only [Bool.or_eq_true] at h2
    rcases h2 with hc | hc
    · exact Or.inl ⟨hg, hc⟩
    · exact Or.inr ⟨hg, hc⟩

/-! ## Claim C6 -/

/-- C6: resolution is deterministic (it is a function of its inputs) and
case-insensitive: two group folder names (and parent month folder names)
that agree up to letter case resolve to the same reference document, for any
state of the cleaned-transcript directory tree. -/
theorem resolver_case_insensitive (n1 p1 n2 p2 : String)
    (fs : List (String × List String))
    (hn : strLower n1 = strLower n2) (hp : strLower p1 = strLower p2) :
    find_corresponding_full_transcript n1 p1 fs =
      find_corresponding_full_transcript n2 p2 fs := by
  unfold find_corresponding_full_transcript
  rw [hn, hp]

/-- Witness for C6 at a concrete input: `Konk Prime_010517` under the `May`
partition, spelled in two letter cases, resolves to the same document. -/
theorem resolver_case_insensitive_witness :
    strLower "Konk Prime_010517" = strLower "KONK PRIME_010517" ∧
    find_corresponding_full_transcript "Konk Prime_010517" "Maycleaned"
        [("Maycleaned", ["1 MAY PRIME_non_bold.odt"])] =
      find_corresponding_full_transcript "KONK PRIME_010517" "MAYCLEANED"
        [("Maycleaned", ["1 MAY PRIME_non_bold.odt"])] := by
  constructor
  · decide
  · exact resolver_case_insensitive "Konk Prime_010517" "Maycleaned"
      "KONK PRIME_010517" "MAYCLEANED"
      [("Maycleaned", ["1 MAY PRIME_non_bold.odt"])] (by decide) (by decide)

/-! ## Claim C7 -/

theorem endsWithTxt_append (l : List Char) : endsWithTxt (l ++ txtExt) = true := by
  unfold endsWithTxt txtExt
  rw [List.reverse_append]
  rfl

/-- C7 counterexample: with a group output directory whose path is 250
characters long, a 30-character segment id is truncated by only a fixed
amount and the resulting full path has 276 characters, exceeding the 260
character Windows bound the code aims at (and also the 255 constant it
computes with). -/
theorem output_path_bound_cex :
    250 + 1 + (outputName 250 (List.replicate 30 'a')).length = 276 ∧
      ¬ (276 ≤ 260) := by
  decide

theorem sanitizeName_mem (name : List Char) :
    ∀ c ∈ sanitizeName name, forbiddenChars.contains c = false := by
  intro c hc
  obtain ⟨a, _, ha⟩ := List.mem_map.mp hc
  by_cases hf : forbiddenChars.contains a = true
  · rw [if_pos hf] at ha
    rw [← ha]
    decide
  · rw [if_neg hf] at ha
    rw [← ha]
    simpa using hf

theorem txtExt_mem : ∀ c ∈ txtExt, forbiddenChars.contains c = false := by
  decide

theorem ensureTxt_mem (l : List Char)
    (h : ∀ c ∈ l, forbiddenChars.contains c = false) :
    ∀ c ∈ ensureTxt l, forbiddenChars.contains c = false := by
  intro c hc
  unfold ensureTxt at hc
  by_cases he : endsWithTxt l
  · rw [if_pos he] at hc
    exact h c hc
  · rw [if_neg he] at hc
    rcases List.mem_append.mp hc with h2 | h2
    · exact h c h2
    · exact txtExt_mem c h2

theorem ensureTxt_endsTxt (l : List Char) : endsWithTxt (ensureTxt l) = true := by
  unfold ensureTxt
  by_cases he : endsWithTxt l
  · rw [if_pos he]; exact he
  · rw [if_neg he]; exact endsWithTxt_append l

theorem truncateName_endsTxt (baseLen : Nat) (l : List Char)
    (h : endsWithTxt l = true) : endsWithTxt (truncateName baseLen l) = true := by
  unfold truncateName
  by_cases hb : (l.length : Int) > 255 - (baseLen : Int) - 10
  · rw [if_pos hb]
    exact endsWithTxt_append _
  · rw [if_neg hb]
    exact h

theorem truncateName_mem (baseLen : Nat) (l : List Char)
    (h : ∀ c ∈ l, forbiddenChars.contains c = false) :
    ∀ c ∈ truncateName baseLen l, forbiddenChars.contains c = false := by
  intro c hc
  unfold truncateName at hc
  by_cases hb : (l.length : Int) > 255 - (baseLen : Int) - 10
  · rw [if_pos hb] at hc
    rcases List.mem_append.mp hc with h2 | h2
    · unfold pyTake at h2
      by_cases hk : (0 : Int) ≤ 255 - (baseLen : Int) - 10 - 4
      · rw [if_pos hk] at h2
        exact h c (List.take_subset _ _ (List.take_subset _ _ h2))
      · rw [if_neg hk] at h2
        exact h c (List.take_subset _ _ (List.take_subset _ _ h2))
    · exact txtExt_mem c h2
  · rw [if_neg hb] at hc
    exact h c hc

theorem truncateName_length (baseLen : Nat) (l : List Char)
    (hbase : baseLen ≤ 241) :
    baseLen + 1 + (truncateName baseLen l).length ≤ 260 := by
  unfold truncateName
  by_cases hb : (l.length : Int) > 255 - (baseLen : Int) - 10
  · rw [if_pos hb]
    have hk : (0 : Int) ≤ 255 - (baseLen : Int) - 10 - 4 := by omega
    unfold pyTake
    rw [if_pos hk, List.length_append]
    have htxtlen : txtExt.length = 4 := by decide
    rw [htxtlen, List.length_take]
    have h1 : (255 - (baseLen : Int) - 10 - 4).toNat = 241 - baseLen := by omega
    rw [h1]
    have h2 : min (241 - baseLen) (l.take (l.length - 4)).length ≤ 241 - baseLen :=
      min_le_left _ _
    omega
  · rw [if_neg hb]
    omega

/-- C7 (amended): the written filename is sanitized (no filesystem-forbidden
character survives) and always ends with the `.txt` artifact extension
(truncation preserves the extension); and provided the group output
directory path has at most 241 characters — the regime the hard-coded
`255 - len(base) - 10` budget is designed for — the full path stays within
the 260 character bound.  (For longer directory paths the truncation is
insufficient, see the counterexample.) -/
theorem output_name_spec (baseLen : Nat) (name : List Char) :
    endsWithTxt (outputName baseLen name) = true ∧
    (∀ c ∈ outputName baseLen name, forbiddenChars.contains c = false) ∧
    (baseLen ≤ 241 → baseLen + 1 + (outputName baseLen name).length ≤ 260) := by
  refine ⟨?_, ?_, ?_⟩
  · exact truncateName_endsTxt baseLen _ (ensureTxt_endsTxt _)
  · exact truncateName_mem baseLen _ (ensureTxt_mem _ (sanitizeName_mem name))
  · intro hbase
    exact truncateName_length baseLen _ hbase

/-- Witness for C7 at a concrete input: with a short base path the written
name ends in `.txt` and the full path stays within the bound. -/
theorem output_name_spec_witness :
    endsWithTxt (outputName 10 ("x" : String).data) = true ∧
      10 + 1 + (outputName 10 ("x" : String).data).length ≤ 260 :=
  ⟨(output_name_spec 10 ("x" : String).data).1,
   (output_name_spec 10 ("x" : String).data).2.2 (by decide)⟩

/-! ## Claim C5 -/

/-- C5: the parser is a total function (the embedding has no failure path,
matching the Python function, which contains no raising operation); the
empty response parses to the empty list, and whenever neither grammar
produces a match the result is the empty list. -/
theorem parse_empty_or_unmatched_nil :
    parse_gemini_response "" = [] ∧
    ∀ s : String, (blockMatchesL (stripHeader s.data)).isEmpty = true →
      lineMatchesL (stripHeader s.data) = [] → parse_gemini_response s = [] := by
  refine ⟨by decide, ?_⟩
  intro s hb hl
  simp only [parse_gemini_response]
  rw [hb]
  simpa using hl

/-- Witness for C5 at a concrete input matching neither grammar. -/
theorem parse_empty_or_unmatched_nil_witness :
    parse_gemini_response "no separating comma here" = [] :=
  parse_empty_or_unmatched_nil.2 "no separating comma here" (by decide) (by decide)

/-! ## Claim C10 -/

theorem mem_of_pyStrip {c : Char} {l : List Char} (h : c ∈ pyStrip l) : c ∈ l := by
  unfold pyStrip at h
  rw [List.mem_reverse] at h
  have h2 := (List.dropWhile_sublist isPySpace).subset h
  rw [List.mem_reverse] at h2
  exact (List.dropWhile_sublist isPySpace).subset h2

theorem tryMatchFront_no_dash {cs : List Char} {pr : List Char × List Char}
    {rem : List Char} (h : tryMatchFront cs = some (pr, rem)) : '-' ∉ pr.1 := by
  have hfst : pr.1 = pyStrip ((cs.drop 3).takeWhile (fun c => c != '-')) := by
    simp only [tryMatchFront] at h
    split_ifs at h <;> simp_all
    all_goals rw [← h.1]
  rw [hfst]
  intro hmem
  have h2 := List.mem_takeWhile_imp (mem_of_pyStrip hmem)
  simp at h2

theorem scanFuel_no_dash :
    ∀ (f : Nat) (cs : List Char) (pr : List Char × List Char),
      pr ∈ scanFuel f cs → '-' ∉ pr.1 := by
  intro f
  induction f with
  | zero => intro cs pr h; simp [scanFuel] at h
  | succ f ih =>
    intro cs pr h
    cases htm : tryMatchFront cs with
    | some x =>
      obtain ⟨pr0, rem⟩ := x
      simp only [scanFuel, htm] at h
      rcases List.mem_cons.mp h with h2 | h2
      · rw [h2]; exact tryMatchFront_no_dash htm
      · exact ih rem pr h2
    | none =>
      simp only [scanFuel, htm] at h
      cases cs with
      | nil => simp at h
      | cons c cs2 => exact ih cs2 pr h

theorem lineKeep_some {line : List Char} {p : String × String}
    (h : lineKeep line = some p) :
    p.1.data ≠ [] ∧ p.2.data ≠ [] ∧ p.1.length < 200 := by
  simp only [lineKeep] at h
  split_ifs at h with h1 h2 h3 h4 h5 h6
  have hp := Option.some.inj h
  rw [← hp]
  refine ⟨?_, ?_, h6⟩
  · simpa using h4
  · simpa using h5

/-- C10: every pair returned by the parser has a non-empty identifier and a
non-empty matched text (after stripping); in the block-grammar branch the
identifier contains no dash, and in the line-grammar branch it is shorter
than 200 characters. -/
theorem parse_pairs_invariants (s : String) (p : String × String)
    (hp : p ∈ parse_gemini_response s) :
    p.1.data ≠ [] ∧ p.2.data ≠ [] ∧
    ((blockMatchesL (stripHeader s.data)).isEmpty = false → '-' ∉ p.1.data) ∧
    ((blockMatchesL (stripHeader s.data)).isEmpty = true → p.1.length < 200) := by
  simp only [parse_gemini_response] at hp
  by_cases hb : (blockMatchesL (stripHeader s.data)).isEmpty = true
  · rw [hb] at hp
    simp only [if_true] at hp
    obtain ⟨line, _, hk⟩ := List.mem_filterMap.mp hp
    have h3 := lineKeep_some hk
    exact ⟨h3.1, h3.2.1, fun hc => absurd hb (by simp [hc]), fun _ => h3.2.2⟩
  · rw [eq_false_of_ne_true hb] at hp
    simp only [Bool.false_eq_true, if_false] at hp
    obtain ⟨q, hq, hpq⟩ := List.mem_map.mp hp
    have hq2 := List.mem_filter.mp hq
    have hflt := hq2.2
    simp only [Bool.and_eq_true, Bool.not_eq_true'] at hflt
    refine ⟨?_, ?_, ?_, ?_⟩
    · rw [← hpq]
      simpa using hflt.1
    · rw [← hpq]
      simpa using hflt.2
    · intro _
      rw [← hpq]
      exact scanFuel_no_dash _ _ q hq2.1
    · intro hc
      exact absurd hc hb

/-- Witness for C10 at a concrete block-grammar input. -/
theorem parse_pairs_invariants_witness :
    ("a" : String).data ≠ [] ∧ '-' ∉ ("a" : String).data := by
  have h := parse_pairs_invariants "--- a ---,b" ("a", "b") (by decide)
  exact ⟨h.1, h.2.2.1 (by decide)⟩

/-! ## Claim C4 -/

theorem dropWhile_comma_iff (line : List Char) :
    (line.dropWhile (fun c => c != ',')).isEmpty = true ↔ ',' ∉ line := by
  rw [List.isEmpty_iff, List.dropWhile_eq_nil_iff]
  constructor
  · intro h hc
    have h2 := h _ hc
    simp at h2
  · intro h c hc
    simp only [bne_iff_ne, ne_eq]
    intro he
    rw [he] at hc
    exact h hc

/-- C4 counterexample: the line `x,` is non-empty, contains a separating
comma, has a short non-header identifier — by the claim it should be kept —
yet the parser discards it (its matched text is empty after stripping) and
returns no pair. -/
theorem line_fallback_discard_cex :
    parse_gemini_response "x," = [] ∧
    pyStrip ("x," : String).data ≠ [] ∧ ',' ∈ ("x," : String).data ∧
    containsLower headerTok ("x," : String).data = false ∧
    (pyStrip (("x," : String).data.takeWhile (fun c => c != ','))).length < 200 := by
  refine ⟨by decide, by decide, by decide, by decide, by decide⟩

/-- C4 (amended): the line-grammar fallback is applied exactly when the block
grammar yields zero matches; under the fallback a line is kept if and only
if it is non-blank, does not contain the header token `file_name`
(case-insensitively, as a substring), contains a separating comma, both the
stripped identifier (text before the first comma) and the stripped text
(after it) are non-empty, and the identifier is shorter than 200
characters.  (Compared to the original claim: emptiness of either stripped
part also discards the line, and any line merely containing the header token
is discarded, not only the header line itself.) -/
theorem line_fallback_characterization :
    (∀ s : String,
      ((blockMatchesL (stripHeader s.data)).isEmpty = false →
        parse_gemini_response s =
          (blockMatchesL (stripHeader s.data)).map (fun p => (⟨p.1⟩, ⟨p.2⟩))) ∧
      ((blockMatchesL (stripHeader s.data)).isEmpty = true →
        parse_gemini_response s = lineMatchesL (stripHeader s.data))) ∧
    (∀ line : List Char,
      (lineKeep line).isSome = true ↔
        (pyStrip line ≠ [] ∧ containsLower headerTok line = false ∧
          ',' ∈ line ∧
          pyStrip (line.takeWhile (fun c => c != ',')) ≠ [] ∧
          pyStrip ((line.dropWhile (fun c => c != ',')).tail) ≠ [] ∧
          (pyStrip (line.takeWhile (fun c => c != ','))).length < 200)) := by
  constructor
  · intro s
    constructor
    · intro hb
      simp only [parse_gemini_response]
      rw [hb]
      simp
    · intro hb
      simp only [parse_gemini_response]
      rw [hb]
      simp
  · intro line
    unfold lineKeep
    split_ifs with h1 h2 h3 h4 h5 h6
    · rw [List.isEmpty_iff] at h1
      simp [h1]
    · simp [h2]
    · have h7 := (dropWhile_comma_iff line).mp h3
      simp [h7]
    · rw [List.isEmpty_iff] at h4
      simp [h4]
    · rw [List.isEmpty_iff] at h5
      simp [h5]
    · simp only [Option.isSome_some, true_iff]
      refine ⟨by simpa using h1, eq_false_of_ne_true h2, ?_,
        by simpa using h4, by simpa using h5, h6⟩
      by_contra hc
      exact h3 ((dropWhile_comma_iff line).mpr hc)
    · simp [h6]

/-- Witness for C4 at concrete inputs: a response with no block markers
falls back to the line grammar, and the line `a,b` is kept. -/
theorem line_fallback_characterization_witness :
    parse_gemini_response "a,b" = lineMatchesL (stripHeader ("a,b" : String).data) ∧
      (lineKeep ("a,b" : String).data).isSome = true := by
  constructor
  · exact (line_fallback_characterization.1 "a,b").2 (by decide)
  · exact (line_fallback_characterization.2 ("a,b" : String).data).mpr
      ⟨by decide, by decide, by decide, by decide, by decide, by decide⟩

/-! ## Claim C1: supporting lemmas -/

theorem takeWhile_all_append (p : Char → Bool) :
    ∀ (a : List Char), (∀ c ∈ a, p c = true) →
      ∀ (x : Char) (b : List Char), p x = false →
        (a ++ x :: b).takeWhile p = a ∧ (a ++ x :: b).dropWhile p = x :: b := by
  intro a
  induction a with
  | nil =>
    intro _ x b hx
    constructor
    · simp [List.takeWhile_cons, hx]
    · simp [List.dropWhile_cons, hx]
  | cons c a ih =>
    intro ha x b hx
    have hc : p c = true := ha c (List.mem_cons_self _ _)
    obtain ⟨h1, h2⟩ := ih (fun d hd => ha d (List.mem_cons_of_mem _ hd)) x b hx
    constructor
    · rw [List.cons_append, List.takeWhile_cons, hc]
      simp [h1]
    · rw [List.cons_append, List.dropWhile_cons, hc]
      simpa using h2

theorem head_false_of_dropWhile_self {p : Char → Bool} {l : List Char}
    (hl : l.dropWhile p = l) : ∀ {x : Char} {xs : List Char},
      l = x :: xs → p x = false := by
  intro x xs he
  subst he
  rw [List.dropWhile_cons] at hl
  by_cases hx : p x = true
  · rw [if_pos hx] at hl
    have h1 := congrArg List.length hl
    have h2 := (List.dropWhile_sublist (l := xs) p).length_le
    simp at h1
    omega
  · simpa using hx

theorem pyStrip_fixed {l : List Char} (h1 : l.dropWhile isPySpace = l)
    (h2 : l.reverse.dropWhile isPySpace = l.reverse) : pyStrip l = l := by
  unfold pyStrip
  rw [h1, h2, List.reverse_reverse]

theorem pyStrip_pad {i : List Char} (hne : i ≠ [])
    (h1 : i.dropWhile isPySpace = i)
    (h2 : i.reverse.dropWhile isPySpace = i.reverse) :
    pyStrip (' ' :: (i ++ [' '])) = i := by
  obtain ⟨c, i2, rfl⟩ := List.exists_cons_of_ne_nil hne
  have hc : isPySpace c = false := head_false_of_dropWhile_self h1 rfl
  have hsp : isPySpace ' ' = true := by decide
  unfold pyStrip
  rw [List.dropWhile_cons, if_pos hsp, List.cons_append, List.dropWhile_cons,
    hc]
  simp only [Bool.false_eq_true, if_false]
  rw [show c :: (i2 ++ [' ']) = (c :: i2) ++ [' '] from by simp]
  rw [List.reverse_append]
  rw [show ([' '] : List Char).reverse = [' '] from rfl]
  rw [List.singleton_append, List.dropWhile_cons, if_pos hsp, h2,
    List.reverse_reverse]

theorem noTripleDash_of_append {v u : List Char}
    (h : noTripleDash (v ++ u) = true) : noTripleDash u = true := by
  induction v with
  | nil => simpa using h
  | cons c v ih =>
    apply ih
    rw [List.cons_append] at h
    simp only [noTripleDash, Bool.and_eq_true] at h
    exact h.2

theorem suffix_not_triple {t u : List Char} (ht : noTripleDash t = true)
    (hs : ∃ v, v ++ u = t) (h3 : startsTriple u = true) : False := by
  obtain ⟨v, rfl⟩ := hs
  have h4 := noTripleDash_of_append ht
  cases u with
  | nil => simp [startsTriple] at h3
  | cons a u2 =>
    simp only [noTripleDash, h3, Bool.not_true, Bool.false_and] at h4
    exact Bool.noConfusion h4

theorem suffix_not_all_ws {t u : List Char}
    (h2 : t.reverse.dropWhile isPySpace = t.reverse) (hu : u ≠ [])
    (hs : ∃ v, v ++ u = t) (hws : ∀ c ∈ u, isPySpace c = true) : False := by
  obtain ⟨v, rfl⟩ := hs
  rw [List.reverse_append] at h2
  have hur : u.reverse ≠ [] := by simpa using hu
  obtain ⟨c, u2, he⟩ := List.exists_cons_of_ne_nil hur
  have hcmem : c ∈ u := by
    rw [← List.mem_reverse, he]
    exact List.mem_cons_self _ _
  have hfalse : isPySpace c = false :=
    head_false_of_dropWhile_self h2 (by rw [he, List.cons_append])
  rw [hws c hcmem] at hfalse
  exact Bool.noConfusion hfalse

theorem startsTriple_suffix_false {t u rest : List Char}
    (h3 : noTripleDash t = true) (hsuf : ∃ v, v ++ u = t) (hne : u ≠ [])
    (hrest : rest = [] ∨ ∃ r, rest = '\n' :: r) :
    startsTriple (u ++ rest) = false := by
  obtain ⟨a, w, rfl⟩ := List.exists_cons_of_ne_nil hne
  have hnleq : (('\n' : Char) == '-') = false := by decide
  cases w with
  | nil =>
    rcases hrest with rfl | ⟨r, rfl⟩
    · rfl
    · cases r with
      | nil => rfl
      | cons e r2 => simp [startsTriple, hnleq]
  | cons b w2 =>
    cases w2 with
    | nil =>
      rcases hrest with rfl | ⟨r, rfl⟩
      · rfl
      · simp [startsTriple, hnleq]
    | cons d w3 =>
      by_cases hall : ((a == '-') && (b == '-') && (d == '-')) = true
      · exfalso
        exact suffix_not_triple h3 hsuf (by simpa [startsTriple] using hall)
      · simp only [List.cons_append, startsTriple]
        simpa using hall

theorem lookaheadStop_false_mid {t rest u : List Char}
    (htr : t.reverse.dropWhile isPySpace = t.reverse)
    (hnl : '\n' ∉ t) (h3 : noTripleDash t = true)
    (hrest : rest = [] ∨ ∃ r, rest = '\n' :: r)
    (hu : u ≠ []) (hsuf : ∃ v, v ++ u = t) :
    lookaheadStop (u ++ rest) = false := by
  obtain ⟨c, u2, rfl⟩ := List.exists_cons_of_ne_nil hu
  have hcmem : c ∈ t := by
    obtain ⟨v, rfl⟩ := hsuf
    exact List.mem_append.mpr (Or.inr (List.mem_cons_self _ _))
  rw [List.cons_append]
  simp only [lookaheadStop]
  have hcnl : (c == '\n') = false := by
    simp only [beq_eq_false_iff_ne, ne_eq]
    intro he
    rw [he] at hcmem
    exact hnl hcmem
  rw [hcnl, Bool.false_or]
  have hu2 : (c :: u2).dropWhile isPySpace ≠ [] := by
    intro hall
    rw [List.dropWhile_eq_nil_iff] at hall
    exact suffix_not_all_ws htr (by simp) hsuf hall
  have hu2suf : ∃ v, v ++ (c :: u2).dropWhile isPySpace = t := by
    obtain ⟨v, rfl⟩ := hsuf
    exact ⟨v ++ (c :: u2).takeWhile isPySpace,
      by rw [List.append_assoc, List.takeWhile_append_dropWhile]⟩
  have hd : List.dropWhile isPySpace (c :: (u2 ++ rest)) =
      (c :: u2).dropWhile isPySpace ++ rest := by
    rw [show c :: (u2 ++ rest) = (c :: u2) ++ rest from by simp,
      List.dropWhile_append, if_neg (by simpa using hu2)]
  simp only [markerAhead]
  rw [hd, startsTriple_suffix_false h3 hu2suf hu2 hrest]
  simp

theorem takeTextGo_through :
    ∀ (t2 acc rest : List Char),
      (∀ u, u ≠ [] → (∃ v, v ++ u = t2) → lookaheadStop (u ++ rest) = false) →
      lookaheadStop rest = true →
      takeTextGo acc (t2 ++ rest) = (acc.reverse ++ t2, rest) := by
  intro t2
  induction t2 with
  | nil =>
    intro acc rest hmid hstop
    cases rest with
    | nil => simp [takeTextGo]
    | cons c r =>
      simp only [List.nil_append, takeTextGo]
      rw [if_pos hstop]
      simp
  | cons c t2 ih =>
    intro acc rest hmid hstop
    rw [List.cons_append]
    simp only [takeTextGo]
    have hfalse : lookaheadStop ((c :: t2) ++ rest) = false :=
      hmid (c :: t2) (by simp) ⟨[], rfl⟩
    rw [List.cons_append] at hfalse
    rw [if_neg (by simp [hfalse])]
    rw [ih (c :: acc) rest
      (fun u hu hsuf => hmid u hu (by
        obtain ⟨v, hv⟩ := hsuf
        exact ⟨c :: v, by rw [← hv]; rfl⟩))
      hstop]
    simp

theorem lookaheadStop_rest {rest : List Char}
    (hrest : rest = [] ∨ ∃ r, rest = '\n' :: r) : lookaheadStop rest = true := by
  rcases hrest with rfl | ⟨r, rfl⟩
  · rfl
  · simp [lookaheadStop]

theorem tryMatchFront_render {i t rest : List Char} (hi : goodId i) (ht : goodText t)
    (hrest : rest = [] ∨ ∃ r, rest = '\n' :: r) :
    tryMatchFront (renderBlock i t ++ rest) = some ((i, t), rest) := by
  obtain ⟨hine, hidash, hi1, hi2⟩ := hi
  obtain ⟨htne, ht1, ht2, htnl, ht3⟩ := ht
  obtain ⟨tc, t2, rfl⟩ := List.exists_cons_of_ne_nil htne
  have htcws : isPySpace tc = false := head_false_of_dropWhile_self ht1 rfl
  have hform : renderBlock i (tc :: t2) ++ rest =
      '-' :: '-' :: '-' :: ((' ' :: (i ++ [' '])) ++
        ('-' :: '-' :: '-' :: ',' :: (tc :: (t2 ++ rest)))) := by
    unfold renderBlock
    simp
  rw [hform]
  have hA : ∀ c ∈ (' ' :: (i ++ [' '])), (c != '-') = true := by
    intro c hc
    rcases List.mem_cons.mp hc with rfl | hc2
    · decide
    · rcases List.mem_append.mp hc2 with hc3 | hc3
      · simp only [bne_iff_ne, ne_eq]
        intro he
        rw [he] at hc3
        exact hidash hc3
      · have h4 := List.mem_singleton.mp hc3
        subst h4
        decide
  obtain ⟨htw, hdw⟩ := takeWhile_all_append (fun c => c != '-')
    (' ' :: (i ++ [' '])) hA '-' ('-' :: '-' :: ',' :: (tc :: (t2 ++ rest)))
    (by decide)
  simp only [List.cons_append, List.append_assoc, List.nil_append] at htw hdw
  simp only [tryMatchFront, List.drop_succ_cons, List.drop_zero]
  simp only [startsTriple, beq_self_eq_true, Bool.and_self, if_true,
    List.cons_append, List.append_assoc, List.nil_append]
  rw [htw, hdw]
  have hcomma : isPySpace ',' = false := by decide
  simp only [List.isEmpty_cons, Bool.false_eq_true, if_false,
    beq_self_eq_true, Bool.and_self, if_true, List.drop_succ_cons,
    List.drop_zero, List.dropWhile_cons, hcomma, htcws, List.head?_cons,
    List.tail_cons]
  have hmid : ∀ u, u ≠ [] → (∃ v, v ++ u = t2) →
      lookaheadStop (u ++ rest) = false := by
    intro u hu hsuf
    obtain ⟨v, hv⟩ := hsuf
    exact lookaheadStop_false_mid ht2 htnl ht3 hrest hu
      ⟨tc :: v, by rw [List.cons_append, hv]⟩
  have httg : takeTextStart (tc :: (t2 ++ rest)) = (tc :: t2, rest) := by
    simp only [takeTextStart]
    rw [takeTextGo_through t2 [tc] rest hmid (lookaheadStop_rest hrest)]
    simp
  rw [httg, pyStrip_pad hine hi1 hi2, pyStrip_fixed ht1 ht2]

theorem takeTextGo_rem_le : ∀ (l acc : List Char),
    (takeTextGo acc l).2.length ≤ l.length := by
  intro l
  induction l with
  | nil => intro acc; simp [takeTextGo]
  | cons c r ih =>
    intro acc
    simp only [takeTextGo]
    by_cases h : lookaheadStop (c :: r) = true
    · rw [if_pos h]
    · rw [if_neg h]
      exact le_trans (ih (c :: acc)) (by simp)

theorem tryMatchFront_rem_lt {cs : List Char} {pr : List Char × List Char}
    {rem : List Char} (h : tryMatchFront cs = some (pr, rem)) :
    rem.length < cs.length := by
  have hne : cs ≠ [] := by
    intro he
    rw [he] at h
    exact Option.noConfusion h
  have hpos : 0 < cs.length := List.length_pos.mpr hne
  simp only [tryMatchFront] at h
  split_ifs at h with h1 h2 h3 h4 h5 h6
  · -- empty-body branch: rem = []
    have h7 := Option.some.inj h
    have h8 := congrArg Prod.snd h7
    simp only at h8
    rw [← h8]
    simpa using hpos
  · -- main branch: rem comes from takeTextGo
    have h7 := Option.some.inj h
    have h8 := congrArg Prod.snd h7
    simp only at h8
    set body := (List.dropWhile isPySpace
      (List.dropWhile isPySpace
        (List.drop 3
          (List.dropWhile (fun c => c != '-') (List.drop 3 cs)))).tail)
      with hbody
    cases hb : body with
    | nil =>
      rw [hb] at h5
      exact absurd rfl h5
    | cons c rest =>
      have h9 : (takeTextStart body).2.length ≤ rest.length := by
        rw [hb]
        simp only [takeTextStart]
        exact takeTextGo_rem_le rest [c]
      rw [← h8]
      have h10 : body.length = rest.length + 1 := by rw [hb]; rfl
      have h11 : body.length ≤
          (List.dropWhile isPySpace
            (List.drop 3
              (List.dropWhile (fun c => c != '-') (List.drop 3 cs)))).tail.length := by
        rw [hbody]
        exact (List.dropWhile_sublist isPySpace).length_le
      have h12 : (List.dropWhile isPySpace
          (List.drop 3
            (List.dropWhile (fun c => c != '-') (List.drop 3 cs)))).tail.length ≤
          (List.dropWhile isPySpace
            (List.drop 3
              (List.dropWhile (fun c => c != '-') (List.drop 3 cs)))).length :=
        (List.tail_sublist _).length_le
      have h13 : (List.dropWhile isPySpace
          (List.drop 3
            (List.dropWhile (fun c => c != '-') (List.drop 3 cs)))).length ≤
          (List.drop 3
            (List.dropWhile (fun c => c != '-') (List.drop 3 cs))).length :=
        (List.dropWhile_sublist isPySpace).length_le
      have h14 : (List.drop 3
          (List.dropWhile (fun c => c != '-') (List.drop 3 cs))).length ≤
          (List.dropWhile (fun c => c != '-') (List.drop 3 cs)).length := by
        rw [List.length_drop]
        omega
      have h15 : (List.dropWhile (fun c => c != '-') (List.drop 3 cs)).length ≤
          (List.drop 3 cs).length :=
        (List.dropWhile_sublist _).length_le
      have h16 : (List.drop 3 cs).length ≤ cs.length := by
        rw [List.length_drop]
        omega
      omega

theorem scanFuel_nil_any : ∀ f : Nat, scanFuel f ([] : List Char) = [] := by
  intro f
  cases f with
  | zero => rfl
  | succ f => rfl

theorem scanFuel_stable : ∀ (f g : Nat) (cs : List Char),
    cs.length ≤ f → cs.length ≤ g → scanFuel f cs = scanFuel g cs := by
  intro f
  induction f with
  | zero =>
    intro g cs hf hg
    have he : cs = [] := List.length_eq_zero.mp (Nat.le_zero.mp hf)
    subst he
    rw [scanFuel_nil_any, scanFuel_nil_any]
  | succ f ih =>
    intro g cs hf hg
    cases cs with
    | nil => rw [scanFuel_nil_any, scanFuel_nil_any]
    | cons c cs2 =>
      cases g with
      | zero => simp at hg
      | succ g2 =>
        cases htm : tryMatchFront (c :: cs2) with
        | some x =>
          obtain ⟨pr, rem⟩ := x
          have hlt := tryMatchFront_rem_lt htm
          simp only [List.length_cons] at hlt hf hg
          simp only [scanFuel, htm]
          rw [ih g2 rem (by omega) (by omega)]
        | none =>
          simp only [List.length_cons] at hf hg
          simp only [scanFuel, htm]
          exact ih g2 cs2 (by omega) (by omega)

theorem blockPairs_pos {cs : List Char} {pr : List Char × List Char}
    {rem : List Char} (h : tryMatchFront cs = some (pr, rem)) :
    blockPairs cs = pr :: blockPairs rem := by
  have hne : cs ≠ [] := by
    intro he
    rw [he] at h
    exact Option.noConfusion h
  obtain ⟨c, cs2, rfl⟩ := List.exists_cons_of_ne_nil hne
  have hlt := tryMatchFront_rem_lt h
  simp only [List.length_cons] at hlt
  unfold blockPairs
  simp only [List.length_cons, scanFuel, h]
  congr 1
  exact scanFuel_stable cs2.length rem.length rem (by omega) (le_refl _)

theorem blockPairs_neg {c : Char} {cs2 : List Char}
    (h : tryMatchFront (c :: cs2) = none) :
    blockPairs (c :: cs2) = blockPairs cs2 := by
  unfold blockPairs
  simp only [List.length_cons, scanFuel, h]

theorem tryMatchFront_not_dash {c : Char} {l : List Char} (h : c ≠ '-') :
    tryMatchFront (c :: l) = none := by
  have hc : (c == '-') = false := by simpa using h
  have h1 : startsTriple (c :: l) = false := by
    cases l with
    | nil => rfl
    | cons b l2 =>
      cases l2 with
      | nil => rfl
      | cons d l3 => simp [startsTriple, hc]
  simp only [tryMatchFront, h1]
  simp

theorem stripHeader_dash (l : List Char) : stripHeader ('-' :: l) = '-' :: l := by
  have hcc : ('f' == Char.toLower '-') = false := by decide
  unfold stripHeader
  rw [show headerTok = 'f' :: ['i', 'l', 'e', '_', 'n', 'a', 'm', 'e'] from rfl]
  simp [dropLowerTok, hcc]

theorem blockPairs_render : ∀ (bs : List (List Char × List Char)),
    (∀ b ∈ bs, goodBlock b) → blockPairs (renderBlocks bs) = bs := by
  intro bs
  induction bs with
  | nil => intro _; rfl
  | cons b bs2 ih =>
    intro hgood
    obtain ⟨i, t⟩ := b
    have hb := hgood (i, t) (List.mem_cons_self _ _)
    cases bs2 with
    | nil =>
      have h2 := tryMatchFront_render hb.1 hb.2 (Or.inl rfl)
      rw [List.append_nil] at h2
      rw [show renderBlocks [(i, t)] = renderBlock i t from rfl]
      rw [blockPairs_pos h2]
      rfl
    | cons b2 bs3 =>
      have h2 := tryMatchFront_render hb.1 hb.2
        (Or.inr ⟨renderBlocks (b2 :: bs3), rfl⟩)
      rw [show renderBlocks ((i, t) :: b2 :: bs3) =
        renderBlock i t ++ ('\n' :: renderBlocks (b2 :: bs3)) from rfl]
      rw [blockPairs_pos h2]
      congr 1
      rw [blockPairs_neg (tryMatchFront_not_dash (by decide))]
      exact ih (fun b hb2 => hgood b (List.mem_cons_of_mem _ hb2))

/-- C1 counterexample: a single well-formed block whose text spans two lines.
Under `re.MULTILINE` the `$` lookahead alternative matches at the end of the
first line, so the parser returns the text truncated to `line one` instead
of the block's full text `line one` + newline + `line two`. -/
theorem parse_block_multiline_cex :
    parse_gemini_response "--- id ---,line one\nline two" =
      [("id", "line one")] ∧
      ("line one" : String) ≠ "line one\nline two" := by
  exact ⟨by decide, by decide⟩

/-- C1 (amended): for every well-formed block-grammar response whose N block
texts are single-line (non-empty, no surrounding whitespace, no newline, no
embedded `---` marker; commas and isolated dashes allowed), the parser
returns exactly N (id, text) pairs, in block order, each with the full text
of its block.  A text spanning several lines is instead truncated at its
first line break (see the counterexample). -/
theorem parse_blocks_roundtrip (bs : List (List Char × List Char))
    (h : ∀ b ∈ bs, goodBlock b) :
    parse_gemini_response ⟨renderBlocks bs⟩ =
      bs.map (fun b => (⟨b.1⟩, ⟨b.2⟩)) := by
  cases bs with
  | nil => rfl
  | cons b bs2 =>
    have hrend : ∃ l, renderBlocks (b :: bs2) = '-' :: l := by
      cases bs2 with
      | nil => exact ⟨_, rfl⟩
      | cons b2 bs3 => exact ⟨_, rfl⟩
    obtain ⟨l, hl⟩ := hrend
    simp only [parse_gemini_response]
    rw [hl, stripHeader_dash, ← hl]
    unfold blockMatchesL
    rw [blockPairs_render _ h]
    have hfilter : (b :: bs2).filter (fun p => !p.1.isEmpty && !p.2.isEmpty) =
        b :: bs2 := by
      rw [List.filter_eq_self]
      intro a ha
      have hg := h a ha
      have h1 : a.1 ≠ [] := hg.1.1
      have h2 : a.2 ≠ [] := hg.2.1
      simp [List.isEmpty_iff, h1, h2]
    rw [hfilter]
    simp

/-- Witness for C1 at a concrete two-block response whose texts contain a
comma and a dash. -/
theorem parse_blocks_roundtrip_witness :
    parse_gemini_response "--- seg1 ---,hello, a-b\n--- seg2 ---,x" =
      [("seg1", "hello, a-b"), ("seg2", "x")] := by
  have h := parse_blocks_roundtrip
    [(("seg1" : String).data, ("hello, a-b" : String).data),
     (("seg2" : String).data, ("x" : String).data)] (by decide)
  have he : (⟨renderBlocks
      [(("seg1" : String).data, ("hello, a-b" : String).data),
       (("seg2" : String).data, ("x" : String).data)]⟩ : String) =
      "--- seg1 ---,hello, a-b\n--- seg2 ---,x" := by decide
  rw [he] at h
  rw [h]
  decide
